import Mathlib

/-!
Shallow embedding of the api-gateway core components (response cache,
sharded rate limiter, circuit breaker, request coalescer) and proofs about
the behaviour of the embedded code.

Go maps are modelled as association lists with unique keys, mutexes are
erased (each locked critical section becomes one atomic step of a pure
state-transformer), Go `int64` is modelled as `Int`, Go `float64` token
arithmetic is modelled with exact rationals `ℚ`, and Go's truncating
float-to-int64 conversion is modelled by truncation toward zero.
-/

namespace Gateway

/-! ### Association-list model of Go maps -/

def alookup {α : Type} : List (String × α) → String → Option α
  | [], _ => none
  | (k', v) :: rest, k => if k' = k then some v else alookup rest k

def ainsert {α : Type} : List (String × α) → String → α → List (String × α)
  | [], k, v => [(k, v)]
  | (k', v') :: rest, k, v =>
      if k' = k then (k, v) :: rest else (k', v') :: ainsert rest k v

def aerase {α : Type} : List (String × α) → String → List (String × α)
  | [], _ => []
  | (k', v') :: rest, k => if k' = k then rest else (k', v') :: aerase rest k

/-! ### Response cache (src/gateway/cache/cache.go) -/

/-- Mirrors `cache.Response`: a cached HTTP response; `TTL` is an absolute
unix-seconds deadline written by `Set`. -/
structure Response where
  statusCode : Int
  headers : List (String × List String)
  body : List Nat
  TTL : Int
deriving DecidableEq, Repr

/-- Mirrors the private `entry` struct: response, last-used unix-nanosecond
timestamp, approximate byte size. -/
structure Entry where
  response : Response
  lastUsed : Int
  size : Int
deriving DecidableEq, Repr

/-- Mirrors `cache.Cache`: data map, entry capacity, byte bound, byte total. -/
structure Cache where
  data : List (String × Entry)
  capacity : Nat
  maxSize : Int
  totalSize : Int
deriving DecidableEq, Repr

/-- Mirrors `NewCache`: empty map, `maxSize = maxSizeMB * 1024 * 1024` bytes. -/
def newCache (capacity : Nat) (maxSizeMB : Int) : Cache :=
  { data := [], capacity := capacity, maxSize := maxSizeMB * 1024 * 1024, totalSize := 0 }

/-- Size computation from `Cache.Set` lines 82-89:
`len(key) + len(body)` plus the lengths of all header names and values
(Go `len` on a string counts bytes, hence `String.utf8ByteSize`). -/
def respSize (key : String) (response : Response) : Int :=
  ((key.utf8ByteSize : Int) + (response.body.length : Int)) +
    (response.headers.map
      (fun kv => ((kv.1.utf8ByteSize : Int) +
        ((kv.2.map (fun v => (v.utf8ByteSize : Int))).sum : Int)))).sum

/-- Mirrors `Cache.evict` (lines 113-131): scan the map for the entry with
the smallest `lastUsed` strictly below the starting value `now` (nanoseconds),
using the empty string as the "not found" sentinel, then subtract its size and
delete it. -/
def cacheEvict (c : Cache) (nowNs : Int) : Cache :=
  let best := c.data.foldl
    (fun (acc : String × Int) kv =>
      if kv.2.lastUsed < acc.2 then (kv.1, kv.2.lastUsed) else acc)
    ("", nowNs)
  if best.1 ≠ "" then
    match alookup c.data best.1 with
    | some oldEntry =>
        { c with totalSize := c.totalSize - oldEntry.size, data := aerase c.data best.1 }
    | none => c
  else c

/-- Lines 94-97 of `Cache.Set`: when the key already exists, subtract the old
entry's size from `totalSize` (the old entry itself stays in the map). -/
def setSubtractOld (c : Cache) (key : String) : Cache :=
  match alookup c.data key with
  | some oldEntry => { c with totalSize := c.totalSize - oldEntry.size }
  | none => c

/-- Lines 99-102 of `Cache.Set`: one (non-looping) eviction when the new entry
would overflow the byte bound. -/
def setEvictBySize (c : Cache) (size : Int) (nowNs : Int) : Cache :=
  if c.totalSize + size > c.maxSize then cacheEvict c nowNs else c

/-- Lines 104-107 of `Cache.Set`: one more eviction when the entry count is at
capacity and the byte bound is still exceeded. -/
def setEvictByCapacity (c : Cache) (size : Int) (nowNs : Int) : Cache :=
  if c.data.length ≥ c.capacity ∧ size + c.totalSize > c.maxSize then
    cacheEvict c nowNs
  else c

/-- Mirrors `Cache.Set` (lines 70-111): no-op for `ttlSeconds ≤ 0`; stamp the
response's TTL; compute the entry size; subtract the old size when the key is
already present (without removing it); call `evict` at most twice under the
two size/capacity conditions; then insert and add the new size. -/
def cacheSet (c : Cache) (key : String) (response : Response) (ttlSeconds : Int)
    (nowSec : Int) (nowNs : Int) : Cache :=
  if ttlSeconds ≤ 0 then c
  else
    let response := { response with TTL := nowSec + ttlSeconds }
    let size := respSize key response
    let e : Entry := { response := response, lastUsed := nowNs, size := size }
    let c3 := setEvictByCapacity (setEvictBySize (setSubtractOld c key) size nowNs) size nowNs
    { c3 with data := ainsert c3.data key e, totalSize := c3.totalSize + size }

/-- Mirrors `Cache.Get` (lines 45-67): miss when absent; when present but
`TTL < now` delete the entry, subtract its size and miss; otherwise refresh
`lastUsed` and return the stored response. -/
def cacheGet (c : Cache) (key : String) (nowSec : Int) (nowNs : Int) :
    Option Response × Cache :=
  match alookup c.data key with
  | none => (none, c)
  | some e =>
      if e.response.TTL < nowSec then
        (none, { c with data := aerase c.data key, totalSize := c.totalSize - e.size })
      else
        (some e.response,
          { c with data := ainsert c.data key { e with lastUsed := nowNs } })

/-- Mirrors `Cache.Clear` (lines 134-139). -/
def cacheClear (c : Cache) : Cache :=
  { c with data := [], totalSize := 0 }

/-- Sum of the sizes of the entries currently stored in the cache map. -/
def cacheSizeSum (c : Cache) : Int :=
  (c.data.map (fun kv => kv.2.size)).sum

/-! ### Rate limiter (src/gateway/ratelimit/limiter.go)

Token counts are Go `float64`; they are modelled with exact rationals.
Go's `int64(x)` conversion on a float truncates toward zero. -/

/-- Go `int64(x)` for a (finite, in-range) float value: truncation toward 0. -/
def goInt64 (q : ℚ) : Int :=
  if q < 0 then ⌈q⌉ else ⌊q⌋

/-- Go's `min` helper from limiter.go lines 110-115. -/
def goMin (a b : ℚ) : ℚ :=
  if a < b then a else b

/-- Mirrors `clientState`: rational token count, last-refill unix second,
sliding window of admission timestamps. -/
structure ClientState where
  tokens : ℚ
  lastRefill : Int
  window : List Int
deriving DecidableEq, Repr

/-- Mirrors `shard`: per-client state map plus the shard-wide refill rate and
burst size (both Go `int64`). -/
structure Shard where
  tokens : List (String × ClientState)
  refillRate : Int
  burstSize : Int
deriving DecidableEq, Repr

/-- Mirrors `Limiter`: the shard slice and the `numShards` field. -/
structure Limiter where
  shards : List Shard
  numShards : Int
deriving DecidableEq, Repr

/-- A fresh shard as built by `NewLimiter`. -/
def newShard (rate burst : Int) : Shard :=
  { tokens := [], refillRate := rate, burstSize := burst }

/-- Mirrors `NewLimiter`: `numShards` shards, each with the default rate and
burst size. -/
def newLimiter (numShards rate burst : Int) : Limiter :=
  { shards := List.replicate numShards.toNat (newShard rate burst), numShards := numShards }

/-- Lines 45-47 of `Limiter.Allow`: a positive `customRate` overwrites the
shard-wide `refillRate` field. -/
def applyCustomRate (s : Shard) (customRate : Int) : Shard :=
  if customRate > 0 then { s with refillRate := customRate } else s

/-- Lines 52-62: read the client state or lazily create it with a full bucket. -/
def lookupOrInit (s : Shard) (key : String) (now : Int) : ClientState :=
  match alookup s.tokens key with
  | some st => st
  | none => { tokens := (s.burstSize : ℚ), lastRefill := now, window := [] }

/-- Lines 64-72: drop window timestamps older than `now - 60`. -/
def cleanWindow (cs : ClientState) (now : Int) : ClientState :=
  { cs with window := cs.window.filter (fun ts => ts ≥ now - 60) }

/-- Lines 74-80: add `refillRate * elapsed / 60` tokens, capped at the burst
size, when time has elapsed since the last refill. -/
def refillTokens (s : Shard) (cs : ClientState) (now : Int) : ClientState :=
  let timeElapsed := now - cs.lastRefill
  if timeElapsed > 0 then
    { cs with
        tokens := goMin (cs.tokens + (s.refillRate : ℚ) * (timeElapsed : ℚ) / 60)
          ((s.burstSize : ℚ)),
        lastRefill := now }
  else cs

/-- The client state as it stands right after the refill step of `Allow`
(lines 52-80), before the admission decision. -/
def admitRefill (s : Shard) (key : String) (now : Int) : ClientState :=
  refillTokens s (cleanWindow (lookupOrInit s key now) now) now

/-- The body of `Limiter.Allow` acting on one shard (lines 52-99): after the
refill step, either deduct one token and append `now` to the window, or deny
with `remaining = int64(tokens)` and `resetTime = now + int64(deficit/rate*60)`.
The final client state is stored back into the shard's map in both branches. -/
def shardAdmit (s : Shard) (key : String) (now : Int) : Shard × Bool × Int × Int :=
  let st := admitRefill s key now
  if st.tokens ≥ 1 then
    let st := { st with tokens := st.tokens - 1, window := st.window ++ [now] }
    ({ s with tokens := ainsert s.tokens key st }, true, goInt64 st.tokens, now + 60)
  else
    let deficit := 1 - st.tokens
    let wait := goInt64 (deficit / (s.refillRate : ℚ) * 60)
    ({ s with tokens := ainsert s.tokens key st }, false, goInt64 st.tokens, now + wait)

/-- Mirrors the first steps of the Go string hash in `getShardIdx`
(lines 102-107): a multiply-by-31 polynomial over the key's runes in
wrapping `uint64` arithmetic. -/
def goHash (key : String) : Nat :=
  key.data.foldl (fun h c => (h * 31 + c.toNat) % (2 ^ 64)) 0

/-- Reinterpret a `uint64` bit pattern as Go's signed `int64`, as done by the
conversion `int(hash)` on a 64-bit platform. -/
def goIntOfUInt64 (h : Nat) : Int :=
  if h < 2 ^ 63 then (h : Int) else (h : Int) - 2 ^ 64

/-- Mirrors `Limiter.getShardIdx` (lines 102-108): `int(hash) % numShards`
with Go's truncated (sign-preserving) integer remainder. -/
def getShardIdx (l : Limiter) (key : String) : Int :=
  Int.tmod (goIntOfUInt64 (goHash key)) l.numShards

/-- Mirrors `Limiter.Allow` (lines 41-100): pick the shard by `getShardIdx`,
apply the `customRate` override, run the admission.  Indexing `l.shards`
with a negative or out-of-range index panics in Go; the panic is modelled
as `none`. -/
def limiterAllow (l : Limiter) (key : String) (customRate : Int) (now : Int) :
    Option (Limiter × Bool × Int × Int) :=
  let idx := getShardIdx l key
  if idx < 0 then none
  else
    match l.shards.get? idx.toNat with
    | none => none
    | some s =>
        let s := applyCustomRate s customRate
        let r := shardAdmit s key now
        some ({ l with shards := l.shards.set idx.toNat r.1 }, r.2.1, r.2.2.1, r.2.2.2)

/-- Run a sequence of `Allow` calls, each given as (clientKey, customRate, now);
`none` as soon as any call panics. -/
def runLimiter (l : Limiter) : List (String × Int × Int) →
    Option (Limiter × List (Bool × Int × Int))
  | [] => some (l, [])
  | (k, cr, now) :: rest =>
      match limiterAllow l k cr now with
      | none => none
      | some (l', a, rem, reset) =>
          match runLimiter l' rest with
          | none => none
          | some (lf, outs) => some (lf, (a, rem, reset) :: outs)

/-- Modelled from the spec: `wait = ceil((deficit / rate) × 60)` seconds with
`deficit = 1 − tokens` (§4.1 step 5). -/
def specCeilWait (tokens rate : ℚ) : Int :=
  ⌈(1 - tokens) / rate * 60⌉

/-- Shard states reachable from a fresh shard by any sequence of `Allow`
calls (arbitrary keys, custom rates and clock readings). -/
inductive ShardReachable (defaultRate burst : Int) : Shard → Prop
  | init : ShardReachable defaultRate burst (newShard defaultRate burst)
  | step (s : Shard) (key : String) (customRate now : Int) :
      ShardReachable defaultRate burst s →
      ShardReachable defaultRate burst (shardAdmit (applyCustomRate s customRate) key now).1

/-! ### Circuit breaker (src/gateway/circuitbreaker/health.go) -/

/-- Mirrors the `State` constants. -/
inductive BState where
  | closed
  | opened
  | halfOpen
deriving DecidableEq, Repr

/-- Mirrors `Breaker` (the observational health tracker is omitted: it feeds
no transition). -/
structure Breaker where
  state : BState
  failureCount : Int
  successCount : Int
  lastFailureTime : Int
  failureThreshold : Int
  successThreshold : Int
  timeoutSeconds : Int
deriving DecidableEq, Repr

/-- Mirrors `NewBreaker`: Closed, zeroed atomics. -/
def newBreaker (failureThreshold successThreshold timeoutSeconds : Int) : Breaker :=
  { state := BState.closed, failureCount := 0, successCount := 0, lastFailureTime := 0,
    failureThreshold := failureThreshold, successThreshold := successThreshold,
    timeoutSeconds := timeoutSeconds }

/-- Mirrors `Breaker.Allow` (lines 123-143): pass in Closed and HalfOpen; in
Open, once the timeout has elapsed since the last failure, swap to HalfOpen,
zero `successCount` and pass. -/
def breakerAllow (b : Breaker) (now : Int) : Breaker × Bool :=
  match b.state with
  | BState.closed => (b, true)
  | BState.opened =>
      if now ≥ b.lastFailureTime + b.timeoutSeconds then
        ({ b with state := BState.halfOpen, successCount := 0 }, true)
      else (b, false)
  | BState.halfOpen => (b, true)

/-- Mirrors `Breaker.RecordSuccess` (lines 146-156): increment
`successCount`; when HalfOpen and the threshold is reached, close and zero
`failureCount`. -/
def recordSuccess (b : Breaker) : Breaker :=
  let success := b.successCount + 1
  let b := { b with successCount := success }
  if b.state = BState.halfOpen ∧ success ≥ b.successThreshold then
    { b with state := BState.closed, failureCount := 0 }
  else b

/-- Mirrors `Breaker.RecordFailure` (lines 159-167): increment
`failureCount`, stamp `lastFailureTime`; at or above the threshold, open. -/
def recordFailure (b : Breaker) (now : Int) : Breaker :=
  let failures := b.failureCount + 1
  let b := { b with failureCount := failures, lastFailureTime := now }
  if failures ≥ b.failureThreshold then { b with state := BState.opened } else b

/-- Breaker states reachable from a fresh breaker by any interleaving of
`Allow`, `RecordSuccess` and `RecordFailure` at arbitrary times. -/
inductive BreakerReachable (ft st ts : Int) : Breaker → Prop
  | init : BreakerReachable ft st ts (newBreaker ft st ts)
  | allow (b : Breaker) (now : Int) :
      BreakerReachable ft st ts b → BreakerReachable ft st ts (breakerAllow b now).1
  | success (b : Breaker) :
      BreakerReachable ft st ts b → BreakerReachable ft st ts (recordSuccess b)
  | failure (b : Breaker) (now : Int) :
      BreakerReachable ft st ts b → BreakerReachable ft st ts (recordFailure b now)

/-! ### Request coalescer (src/gateway/proxy/coalesce.go)

The per-group mutex serializes the critical sections of `Do`; each locked
section is one atomic step.  A group is modelled by its `done` flag, its
stored response and the number of enrolled waiter channels; the buffered
result channels are modelled by the broadcast list the executor produces. -/

/-- Mirrors `proxy.Response` (the coalescer's result type); the error is a
message option. -/
structure CResponse where
  statusCode : Int
  body : List Nat
  err : Option String
deriving DecidableEq, Repr

/-- Mirrors `CoalesceGroup`: waiter-channel count, done flag, stored result. -/
structure CoalesceGroup where
  waiters : Nat
  done : Bool
  response : Option CResponse
deriving DecidableEq, Repr

/-- A fresh group as built by the `LoadOrStore` argument in `Do` (line 38). -/
def newGroup : CoalesceGroup :=
  { waiters := 0, done := false, response := none }

/-- What a `Do` call observes in its first locked section. -/
inductive Role where
  | executor
  | waiter
  | lateComer
deriving DecidableEq, Repr

/-- The first locked section of `Do` (lines 44-57 and 87-90): a completed
group answers immediately; on an empty waiter list the caller becomes the
executor and appends its own channel; otherwise it appends a waiter channel. -/
def enroll (g : CoalesceGroup) : CoalesceGroup × Role :=
  if g.done then (g, Role.lateComer)
  else if g.waiters = 0 then ({ g with waiters := 1 }, Role.executor)
  else ({ g with waiters := g.waiters + 1 }, Role.waiter)

/-- `n` calls that all perform their enrollment section (in this order)
before any completion; returns the resulting group and each caller's role. -/
def enrollAll (g : CoalesceGroup) : Nat → CoalesceGroup × List Role
  | 0 => (g, [])
  | n + 1 =>
      let (g', r) := enroll g
      let (g'', rs) := enrollAll g' n
      (g'', r :: rs)

/-- The executor's completion section (lines 62-77): wrap a nil response
into an error response, set `done`, store the result, and send it to every
enrolled waiter channel (the broadcast list).  The executor itself returns
the same response (line 84). -/
def completeGroup (g : CoalesceGroup) (resp : Option CResponse) (err : Option String) :
    CoalesceGroup × CResponse × List CResponse :=
  let r :=
    match resp with
    | none => { statusCode := 0, body := [], err := err }
    | some r0 => { r0 with err := err }
  ({ g with done := true, response := some r }, r, List.replicate g.waiters r)

/-! ### Concrete scenario inputs -/

/-- A body of `n` zero bytes. -/
def cbody (n : Nat) : List Nat := List.replicate n 0

/-- Input for the oversized-insert scenario: a 1048577-byte body. -/
def c1Resp : Response :=
  { statusCode := 200, headers := [], body := cbody 1048577, TTL := 0 }

/-- The cache produced by a single `Set` of `c1Resp` into a fresh
1 MB / 1000-entry cache. -/
def c1Cache : Cache :=
  cacheSet (newCache 1000 1) "k" c1Resp 60 0 0

/-- The entry stored for `c1Resp`. -/
def c1Entry : Entry :=
  { response := { statusCode := 200, headers := [], body := cbody 1048577, TTL := 60 },
    lastUsed := 0, size := 1048578 }

/-- The expected contents of `c1Cache`. -/
def c1CacheExpected : Cache :=
  { data := [("k", c1Entry)], capacity := 1000, maxSize := 1048576, totalSize := 1048578 }

/-- Inputs for the overwrite-then-evict scenario: a 99-byte body under "k",
a 524287-byte body under "l", then a 1048570-byte body overwriting "k". -/
def c4RespK : Response := { statusCode := 200, headers := [], body := cbody 99, TTL := 0 }

def c4RespL : Response := { statusCode := 200, headers := [], body := cbody 524287, TTL := 0 }

def c4RespK2 : Response := { statusCode := 200, headers := [], body := cbody 1048570, TTL := 0 }

/-- The entry stored for `c4RespK` ("k", set at second 0 / nanosecond 0). -/
def c4EntryK : Entry :=
  { response := { statusCode := 200, headers := [], body := cbody 99, TTL := 100 },
    lastUsed := 0, size := 100 }

/-- The entry stored for `c4RespL` ("l", set at second 1 / nanosecond 10). -/
def c4EntryL : Entry :=
  { response := { statusCode := 200, headers := [], body := cbody 524287, TTL := 101 },
    lastUsed := 10, size := 524288 }

/-- The entry stored for `c4RespK2` ("k" again, set at second 2 / nanosecond 20). -/
def c4EntryK2 : Entry :=
  { response := { statusCode := 200, headers := [], body := cbody 1048570, TTL := 102 },
    lastUsed := 20, size := 1048571 }

/-- Cache contents after the first scenario `Set`. -/
def c4CacheA : Cache :=
  { data := [("k", c4EntryK)], capacity := 1000, maxSize := 1048576, totalSize := 100 }

/-- Cache contents after the second scenario `Set`. -/
def c4CacheB : Cache :=
  { data := [("k", c4EntryK), ("l", c4EntryL)], capacity := 1000, maxSize := 1048576,
    totalSize := 524388 }

/-- Cache contents after the third scenario `Set` (the overwrite): "k" was
both subtracted as the overwritten key and evicted, so its old 100 bytes were
subtracted twice. -/
def c4CacheC : Cache :=
  { data := [("l", c4EntryL), ("k", c4EntryK2)], capacity := 1000, maxSize := 1048576,
    totalSize := 1572759 }

/-- The cache produced by the three scenario `Set` calls on a fresh
1 MB / 1000-entry cache. -/
def c4Cache : Cache :=
  cacheSet (cacheSet (cacheSet (newCache 1000 1) "k" c4RespK 100 0 0)
      "l" c4RespL 100 1 10)
    "k" c4RespK2 100 2 20

/-- An Open breaker (thresholds 3/2, open timeout 2 s, last failure at
second 7) used to instantiate the breaker theorems. -/
def c3OpenBreaker : Breaker :=
  { state := BState.opened, failureCount := 3, successCount := 0, lastFailureTime := 7,
    failureThreshold := 3, successThreshold := 2, timeoutSeconds := 2 }

/-- The same breaker probing in HalfOpen. -/
def c3HalfBreaker : Breaker := { c3OpenBreaker with state := BState.halfOpen }

/-- A reachable HalfOpen breaker: thresholds 1/1, timeout 0; one failure at
second 0, then an `Allow` at second 0 performs Open → HalfOpen. -/
def c10Breaker : Breaker := (breakerAllow (recordFailure (newBreaker 1 1 0) 0) 0).1

/-- The shard invariant: the burst size is the configured one, the refill
rate is non-negative, and every stored client state has tokens within
`[0, burst]`. -/
def shardInv (burst : Int) (s : Shard) : Prop :=
  s.burstSize = burst ∧ 0 ≤ s.refillRate ∧
    ∀ key cs, alookup s.tokens key = some cs →
      0 ≤ cs.tokens ∧ cs.tokens ≤ (burst : ℚ)

/-- Run a sequence of admissions (clientKey, customRate, now) against one
shard, as `Limiter.Allow` does when every key maps to this shard. -/
def runShard (s : Shard) : List (String × Int × Int) → Shard × List (Bool × Int × Int)
  | [] => (s, [])
  | (k, cr, now) :: rest =>
      let r := shardAdmit (applyCustomRate s cr) k now
      let rr := runShard r.1 rest
      (rr.1, r.2 :: rr.2)

/-- A shard (rate 40/min, burst 1) after one admission for client "b" at
second 0: "b" holds 0 tokens. -/
def c5Shard : Shard := (shardAdmit (newShard 40 1) "b" 0).1

/-- A reachable shard (rate 60/min, burst 5) after one admission for
client "a" at second 0. -/
def c7Shard : Shard := (shardAdmit (applyCustomRate (newShard 60 5) 0) "a" 0).1

/-- The client state stored for "a" in `c7Shard`. -/
def c7State : ClientState := { tokens := 4, lastRefill := 0, window := [0] }

/-! ### Association-list lemmas -/

theorem alookup_ainsert_self {α : Type} (m : List (String × α)) (k : String) (v : α) :
    alookup (ainsert m k v) k = some v := by
  induction m with
  | nil => simp [ainsert, alookup]
  | cons hd tl ih =>
      obtain ⟨k', v'⟩ := hd
      by_cases h : k' = k
      · simp [ainsert, alookup, h]
      · simp [ainsert, alookup, h, ih]

theorem alookup_ainsert_ne {α : Type} (m : List (String × α)) (k k' : String) (v : α)
    (h : k ≠ k') : alookup (ainsert m k v) k' = alookup m k' := by
  induction m with
  | nil => simp [ainsert, alookup, h]
  | cons hd tl ih =>
      obtain ⟨k0, v0⟩ := hd
      by_cases h0 : k0 = k
      · subst h0
        simp [ainsert, alookup, h]
      · simp only [ainsert, if_neg h0]
        by_cases h1 : k0 = k'
        · simp [alookup, h1]
        · simp [alookup, h1, ih]

/-! ### Cache evaluation lemmas -/

theorem cbody_length (n : Nat) : (cbody n).length = n := by
  unfold cbody
  rw [List.length_replicate]

theorem cacheSet_pos (c : Cache) (key : String) (resp : Response) (ttl nowSec nowNs : Int)
    (h : 0 < ttl) :
    cacheSet c key resp ttl nowSec nowNs =
      { setEvictByCapacity
          (setEvictBySize (setSubtractOld c key)
            (respSize key { resp with TTL := nowSec + ttl }) nowNs)
          (respSize key { resp with TTL := nowSec + ttl }) nowNs with
        data := ainsert
          (setEvictByCapacity
            (setEvictBySize (setSubtractOld c key)
              (respSize key { resp with TTL := nowSec + ttl }) nowNs)
            (respSize key { resp with TTL := nowSec + ttl }) nowNs).data key
          { response := { resp with TTL := nowSec + ttl }, lastUsed := nowNs,
            size := respSize key { resp with TTL := nowSec + ttl } },
        totalSize :=
          (setEvictByCapacity
            (setEvictBySize (setSubtractOld c key)
              (respSize key { resp with TTL := nowSec + ttl }) nowNs)
            (respSize key { resp with TTL := nowSec + ttl }) nowNs).totalSize +
            respSize key { resp with TTL := nowSec + ttl } } := by
  unfold cacheSet
  rw [if_neg (by omega)]

theorem c4_stepA : cacheSet (newCache 1000 1) "k" c4RespK 100 0 0 = c4CacheA := by
  have h1 : "k".utf8ByteSize = 1 := rfl
  have hsize : respSize "k" { c4RespK with TTL := (0 : Int) + 100 } = 100 := by
    simp [respSize, c4RespK, cbody_length, h1]
  rw [cacheSet_pos _ _ _ _ _ _ (by norm_num), hsize]
  have hsub : setSubtractOld (newCache 1000 1) "k" = newCache 1000 1 := by
    simp [setSubtractOld, newCache, alookup]
  have hev1 : setEvictBySize (newCache 1000 1) 100 0 = newCache 1000 1 := by
    simp [setEvictBySize, newCache]
  have hev2 : setEvictByCapacity (newCache 1000 1) 100 0 = newCache 1000 1 := by
    simp [setEvictByCapacity, newCache]
  rw [hsub, hev1, hev2]
  simp [newCache, ainsert, c4CacheA, c4EntryK, c4RespK]

theorem c4_stepB : cacheSet c4CacheA "l" c4RespL 100 1 10 = c4CacheB := by
  have h1 : "l".utf8ByteSize = 1 := rfl
  have hsize : respSize "l" { c4RespL with TTL := (1 : Int) + 100 } = 524288 := by
    simp [respSize, c4RespL, cbody_length, h1]
  rw [cacheSet_pos _ _ _ _ _ _ (by norm_num), hsize]
  have hsub : setSubtractOld c4CacheA "l" = c4CacheA := by
    simp [setSubtractOld, c4CacheA, alookup]
  have hev1 : setEvictBySize c4CacheA 524288 10 = c4CacheA := by
    simp [setEvictBySize, c4CacheA]
  have hev2 : setEvictByCapacity c4CacheA 524288 10 = c4CacheA := by
    simp [setEvictByCapacity, c4CacheA]
  rw [hsub, hev1, hev2]
  simp [c4CacheA, ainsert, c4CacheB, c4EntryL, c4RespL]

theorem c4_stepC : cacheSet c4CacheB "k" c4RespK2 100 2 20 = c4CacheC := by
  have h1 : "k".utf8ByteSize = 1 := rfl
  have hsize : respSize "k" { c4RespK2 with TTL := (2 : Int) + 100 } = 1048571 := by
    simp [respSize, c4RespK2, cbody_length, h1]
  rw [cacheSet_pos _ _ _ _ _ _ (by norm_num), hsize]
  have hsub : setSubtractOld c4CacheB "k" = { c4CacheB with totalSize := 524288 } := by
    simp [setSubtractOld, c4CacheB, alookup, c4EntryK]
  have hev1 : setEvictBySize { c4CacheB with totalSize := 524288 } 1048571 20 =
      { data := [("l", c4EntryL)], capacity := 1000, maxSize := 1048576,
        totalSize := 524188 } := by
    simp [setEvictBySize, c4CacheB, cacheEvict, List.foldl, c4EntryK, c4EntryL,
      alookup, aerase]
  have hev2 : setEvictByCapacity
      { data := [("l", c4EntryL)], capacity := 1000, maxSize := 1048576,
        totalSize := 524188 } 1048571 20 =
      { data := [("l", c4EntryL)], capacity := 1000, maxSize := 1048576,
        totalSize := 524188 } := by
    simp [setEvictByCapacity]
  rw [hsub, hev1, hev2]
  simp [ainsert, c4CacheC, c4EntryK2, c4RespK2, c4EntryL]

/-! ### C1: `totalSize ≤ maxSize` after `Set` -/

/-- Claim C1 fails on the code: `Cache.Set` calls `evict` at most twice
(each removing at most one entry) instead of looping until the new entry
fits, and then inserts unconditionally.  A single `Set` of a 1048577-byte
body into a fresh cache created by `NewCache(1000, 1)` (so
`maxSize = 1048576` bytes) completes with `totalSize = 1048578 > maxSize`. -/
theorem cache_set_exceeds_maxSize :
    c1Cache.totalSize = 1048578 ∧ c1Cache.maxSize = 1048576 ∧
      c1Cache.totalSize > c1Cache.maxSize := by
  have h1 : "k".utf8ByteSize = 1 := rfl
  have hsize : respSize "k" { c1Resp with TTL := (0 : Int) + 60 } = 1048578 := by
    simp [respSize, c1Resp, cbody_length, h1]
  have h : c1Cache = c1CacheExpected := by
    unfold c1Cache
    rw [cacheSet_pos _ _ _ _ _ _ (by norm_num), hsize]
    have hsub : setSubtractOld (newCache 1000 1) "k" = newCache 1000 1 := by
      simp [setSubtractOld, newCache, alookup]
    have hev1 : setEvictBySize (newCache 1000 1) 1048578 0 = newCache 1000 1 := by
      simp [setEvictBySize, newCache, cacheEvict, List.foldl]
    have hev2 : setEvictByCapacity (newCache 1000 1) 1048578 0 = newCache 1000 1 := by
      simp [setEvictByCapacity, newCache]
    rw [hsub, hev1, hev2]
    simp [newCache, ainsert, c1Resp, c1CacheExpected, c1Entry]
  rw [h]
  refine ⟨rfl, rfl, by norm_num [c1CacheExpected]⟩

/-! ### C4: `totalSize` equals the sum of stored entry sizes -/

/-- Claim C4 fails on the code: when `Set` overwrites an existing key it
subtracts the old entry's size but leaves the entry in the map, so if the
eviction scan inside the same `Set` then selects that entry, its size is
subtracted a second time.  After `Set("k", 99B); Set("l", 524287B);
Set("k", 1048570B)` on a fresh `NewCache(1000, 1)` cache, `totalSize` is
1572759 while the entries stored in the map total 1572859 bytes. -/
theorem cache_totalSize_diverges_from_size_sum :
    c4Cache.totalSize = 1572759 ∧ cacheSizeSum c4Cache = 1572859 ∧
      c4Cache.totalSize ≠ cacheSizeSum c4Cache := by
  have h : c4Cache = c4CacheC := by
    unfold c4Cache
    rw [c4_stepA, c4_stepB, c4_stepC]
  rw [h]
  refine ⟨by simp [c4CacheC], by simp [cacheSizeSum, c4CacheC, c4EntryL, c4EntryK2], ?_⟩
  simp [cacheSizeSum, c4CacheC, c4EntryL, c4EntryK2]

/-! ### C9: cache round trip -/

/-- Claim C9: after `cache.Set(K, R, t)` with `t > 0`, a `Get(K)` at any time
not later than the TTL deadline (no intervening operation, no expiry) returns
the stored response, which is `R` with its `TTL` field stamped to `set` time
plus `t` (Go mutates `R` in place, so this is the object `R` itself); and
after `cache.Clear()`, `Get` misses for every key. -/
theorem cache_set_get_roundtrip_and_clear_miss (c : Cache) (key : String)
    (resp : Response) (ttl setSec setNs getSec getNs : Int)
    (h1 : 0 < ttl) (h2 : getSec ≤ setSec + ttl) :
    (cacheGet (cacheSet c key resp ttl setSec setNs) key getSec getNs).1 =
      some { resp with TTL := setSec + ttl }
    ∧ ∀ (k : String) (t2 n2 : Int), (cacheGet (cacheClear c) k t2 n2).1 = none := by
  constructor
  · have hins :
        alookup (cacheSet c key resp ttl setSec setNs).data key =
          some { response := { resp with TTL := setSec + ttl }, lastUsed := setNs,
                 size := respSize key { resp with TTL := setSec + ttl } } := by
      unfold cacheSet
      rw [if_neg (by omega)]
      exact alookup_ainsert_self _ _ _
    unfold cacheGet
    rw [hins]
    simp only
    rw [if_neg (by simp; omega)]
  · intro k t2 n2
    simp [cacheGet, cacheClear, alookup]

/-- Witness for C9 at a concrete input: a fresh 1 MB cache, one `Set` at
time 0 with TTL 60, one `Get` at time 30. -/
theorem cache_set_get_roundtrip_and_clear_miss_witness :
    (cacheGet
        (cacheSet (newCache 10 1)
          "K" { statusCode := 200, headers := [], body := [1, 2], TTL := 0 } 60 0 5)
        "K" 30 7).1 =
      some { statusCode := 200, headers := [], body := [1, 2], TTL := 60 }
    ∧ ∀ (k : String) (t2 n2 : Int),
        (cacheGet (cacheClear (newCache 10 1)) k t2 n2).1 = none :=
  cache_set_get_roundtrip_and_clear_miss (newCache 10 1) "K"
    { statusCode := 200, headers := [], body := [1, 2], TTL := 0 } 60 0 5 30 7
    (by decide) (by decide)


/-! ### C2: shard selection -/

/-- Claim C2 fails on the code: `getShardIdx` computes `int(hash) % numShards`
where `int(hash)` reinterprets the unsigned 64-bit hash as a signed integer.
For the client key "192.168.10.100:50000" the hash is 18281719455270355868,
whose `int64` reinterpretation is negative, and Go's sign-preserving `%`
yields shard index -4 with 16 shards, so `l.shards[shardIdx]` panics with an
index-out-of-range runtime error (modelled as `none`). -/
theorem shard_index_negative_causes_panic :
    getShardIdx (newLimiter 16 60 10) "192.168.10.100:50000" = -4
    ∧ limiterAllow (newLimiter 16 60 10) "192.168.10.100:50000" 0 0 = none := by
  constructor
  · decide
  · simp [limiterAllow]
    decide

/-! ### Breaker lemmas -/

theorem recordFailure_state_opened (b : Breaker) (t : Int)
    (h : b.state = BState.opened) : (recordFailure b t).state = BState.opened := by
  unfold recordFailure
  by_cases hc : b.failureCount + 1 >= b.failureThreshold
  · rw [if_pos hc]
  · rw [if_neg hc]
    exact h

theorem foldl_recordFailure_opened (times : List Int) (b : Breaker)
    (h : b.state = BState.opened) :
    (times.foldl recordFailure b).state = BState.opened := by
  induction times generalizing b with
  | nil => exact h
  | cons t rest ih => exact ih _ (recordFailure_state_opened b t h)

theorem foldl_recordFailure_spec (times : List Int) (b : Breaker)
    (h : b.state = BState.closed) :
    (times.foldl recordFailure b).state =
      if 1 ≤ times.length ∧ b.failureCount + (times.length : Int) ≥ b.failureThreshold
      then BState.opened else BState.closed := by
  induction times generalizing b with
  | nil => simpa using h
  | cons t rest ih =>
      by_cases hc : b.failureCount + 1 ≥ b.failureThreshold
      · have hb' : (recordFailure b t).state = BState.opened := by
          unfold recordFailure
          rw [if_pos hc]
        have hop : (rest.foldl recordFailure (recordFailure b t)).state = BState.opened :=
          foldl_recordFailure_opened rest _ hb'
        rw [List.foldl_cons, hop, if_pos]
        refine ⟨by simp, ?_⟩
        simp only [List.length_cons]
        push_cast
        omega
      · have hb' : (recordFailure b t).state = BState.closed := by
          unfold recordFailure
          rw [if_neg hc]
          exact h
        have hcount : (recordFailure b t).failureCount = b.failureCount + 1 := by
          unfold recordFailure
          rw [if_neg hc]
        have hth : (recordFailure b t).failureThreshold = b.failureThreshold := by
          unfold recordFailure
          rw [if_neg hc]
        rw [List.foldl_cons, ih _ hb', hcount, hth]
        simp only [List.length_cons]
        split_ifs <;> first | rfl | omega

theorem recordSuccess_halfOpen_lt (b : Breaker)
    (h1 : b.successCount + 1 < b.successThreshold) :
    recordSuccess b = { b with successCount := b.successCount + 1 } := by
  unfold recordSuccess
  rw [if_neg]
  rintro ⟨-, hge⟩
  simp only at hge
  omega

theorem iterate_recordSuccess_halfOpen (n : Nat) (b : Breaker)
    (h0 : b.state = BState.halfOpen)
    (h1 : b.successCount + (n : Int) < b.successThreshold) :
    recordSuccess^[n] b = { b with successCount := b.successCount + (n : Int) } := by
  induction n generalizing b with
  | zero =>
      cases b
      simp
  | succ n ih =>
      rw [Function.iterate_succ_apply,
        recordSuccess_halfOpen_lt b (by push_cast at h1; omega)]
      rw [ih _ (by simpa using h0) (by simp; push_cast at h1 ⊢; omega)]
      cases b
      simp
      ring

theorem iterate_recordSuccess_closes (b : Breaker)
    (h0 : b.state = BState.halfOpen) (hsc : b.successCount = 0)
    (hst : 1 ≤ b.successThreshold) :
    (recordSuccess^[b.successThreshold.toNat] b).state = BState.closed ∧
    (recordSuccess^[b.successThreshold.toNat] b).failureCount = 0 := by
  have hsplit : b.successThreshold.toNat = (b.successThreshold.toNat - 1) + 1 := by omega
  rw [hsplit, Function.iterate_succ_apply']
  rw [iterate_recordSuccess_halfOpen _ b h0 (by omega)]
  unfold recordSuccess
  rw [if_pos]
  · constructor <;> rfl
  · refine ⟨by simpa using h0, ?_⟩
    simp only
    omega

/-! ### C3: the breaker state machine -/

/-- Claim C3: from a fresh breaker, exactly `failureThreshold` consecutive
`RecordFailure` calls produce Open (fewer leave it Closed); from any Open
state, once `openTimeout` seconds have elapsed since the last failure the
next `Allow` returns true and moves to HalfOpen with `successCount` zeroed;
from HalfOpen with `successCount = 0`, exactly `successThreshold` consecutive
`RecordSuccess` calls produce Closed with `failureCount = 0` (fewer leave it
HalfOpen). -/
theorem breaker_state_machine (ft st ts : Int) (hft : 1 ≤ ft) (hst : 1 ≤ st) :
    (∀ times : List Int, (times.length : Int) = ft →
        (times.foldl recordFailure (newBreaker ft st ts)).state = BState.opened)
  ∧ (∀ times : List Int, (times.length : Int) < ft →
        (times.foldl recordFailure (newBreaker ft st ts)).state = BState.closed)
  ∧ (∀ (b : Breaker) (now : Int), b.state = BState.opened →
        now ≥ b.lastFailureTime + b.timeoutSeconds →
        breakerAllow b now = ({ b with state := BState.halfOpen, successCount := 0 }, true))
  ∧ (∀ b : Breaker, b.state = BState.halfOpen → b.successCount = 0 →
        b.successThreshold = st →
        ((recordSuccess^[st.toNat] b).state = BState.closed ∧
         (recordSuccess^[st.toNat] b).failureCount = 0) ∧
        ∀ n : Nat, (n : Int) < st → (recordSuccess^[n] b).state = BState.halfOpen) := by
  refine ⟨?_, ?_, ?_, ?_⟩
  · intro times hlen
    rw [foldl_recordFailure_spec _ _ rfl, if_pos]
    simp only [newBreaker]
    constructor
    · omega
    · omega
  · intro times hlen
    rw [foldl_recordFailure_spec _ _ rfl, if_neg]
    rintro ⟨h1, h2⟩
    simp only [newBreaker] at h2
    omega
  · intro b now h0 h2
    simp only [breakerAllow, h0]
    rw [if_pos h2]
  · intro b hb hsc hth
    constructor
    · rw [← hth]
      exact iterate_recordSuccess_closes b hb hsc (by omega)
    · intro n hn
      rw [iterate_recordSuccess_halfOpen n b hb (by omega)]
      exact hb

/-- Witness for C3 at thresholds 3/2 and a 2-second timeout. -/
theorem breaker_state_machine_witness :
    ([5, 6, 7].foldl recordFailure (newBreaker 3 2 2)).state = BState.opened
  ∧ ([5].foldl recordFailure (newBreaker 3 2 2)).state = BState.closed
  ∧ breakerAllow c3OpenBreaker 9 =
      ({ c3OpenBreaker with state := BState.halfOpen, successCount := 0 }, true)
  ∧ (recordSuccess^[(2 : Int).toNat] c3HalfBreaker).state = BState.closed
  ∧ (recordSuccess^[(2 : Int).toNat] c3HalfBreaker).failureCount = 0
  ∧ (recordSuccess^[1] c3HalfBreaker).state = BState.halfOpen := by
  obtain ⟨p1, p2, p3, p4⟩ := breaker_state_machine 3 2 2 (by norm_num) (by norm_num)
  obtain ⟨⟨q1, q2⟩, q3⟩ := p4 c3HalfBreaker rfl rfl rfl
  exact ⟨p1 [5, 6, 7] (by simp), p2 [5] (by simp),
    p3 c3OpenBreaker 9 rfl (by norm_num [c3OpenBreaker]),
    q1, q2, q3 1 (by norm_num)⟩

/-! ### C10: HalfOpen keeps the failure count -/

theorem breaker_reachable_opened_inv (ft st ts : Int) (b : Breaker)
    (h : BreakerReachable ft st ts b) :
    (b.state = BState.opened ∨ b.state = BState.halfOpen) →
      b.failureCount ≥ b.failureThreshold := by
  induction h with
  | init =>
      rintro (hs | hs) <;> simp [newBreaker] at hs
  | allow b now hr ih =>
      intro hs
      rcases hb : b.state with _ | _ | _ <;> simp only [breakerAllow, hb] at hs ⊢
      · simp at hs
      · split_ifs with hcond
        · exact ih (Or.inl hb)
        · exact ih (Or.inl hb)
      · exact ih (Or.inr hb)
  | success b hr ih =>
      intro hs
      by_cases hc : b.state = BState.halfOpen ∧ b.successCount + 1 ≥ b.successThreshold
      · have heq : recordSuccess b = { b with successCount := b.successCount + 1, state := BState.closed, failureCount := 0 } := by
          unfold recordSuccess
          rw [if_pos (by simpa using hc)]
        rw [heq] at hs
        simp at hs
      · have heq : recordSuccess b = { b with successCount := b.successCount + 1 } := by
          unfold recordSuccess
          rw [if_neg (by simpa using hc)]
        rw [heq] at hs ⊢
        exact ih (by simpa using hs)
  | failure b now hr ih =>
      intro hs
      by_cases hc : b.failureCount + 1 ≥ b.failureThreshold
      · have heq : recordFailure b now = { b with failureCount := b.failureCount + 1, lastFailureTime := now, state := BState.opened } := by
          unfold recordFailure
          rw [if_pos (by simpa using hc)]
        rw [heq]
        simpa using hc
      · have heq : recordFailure b now = { b with failureCount := b.failureCount + 1, lastFailureTime := now } := by
          unfold recordFailure
          rw [if_neg (by simpa using hc)]
        rw [heq] at hs ⊢
        have hb := ih (by simpa using hs)
        simp only
        omega

/-- Claim C10: in every reachable HalfOpen breaker state the failure count is
still at or above the failure threshold (the Open → HalfOpen transition does
not reset it), so one `RecordFailure` from HalfOpen immediately re-opens. -/
theorem halfOpen_failure_returns_to_opened (ft st ts now : Int) (b : Breaker)
    (h : BreakerReachable ft st ts b) (hs : b.state = BState.halfOpen) :
    b.failureCount ≥ b.failureThreshold ∧
      (recordFailure b now).state = BState.opened := by
  have hinv := breaker_reachable_opened_inv ft st ts b h (Or.inr hs)
  refine ⟨hinv, ?_⟩
  unfold recordFailure
  rw [if_pos (by simp only []; omega)]

/-- Witness for C10 at a concrete reachable HalfOpen state. -/
theorem halfOpen_failure_returns_to_opened_witness :
    c10Breaker.failureCount ≥ c10Breaker.failureThreshold ∧
      (recordFailure c10Breaker 5).state = BState.opened :=
  halfOpen_failure_returns_to_opened 1 1 0 5 c10Breaker
    (BreakerReachable.allow _ 0 (BreakerReachable.failure _ 0 BreakerReachable.init))
    (by decide)


theorem goMin_bounds (a b : ℚ) (ha : 0 ≤ a) (hb : 0 ≤ b) :
    0 ≤ goMin a b ∧ goMin a b ≤ b := by
  unfold goMin
  split_ifs with h
  · exact ⟨ha, le_of_lt h⟩
  · exact ⟨hb, le_refl b⟩

theorem refillTokens_bounds (s : Shard) (cs : ClientState) (now : Int)
    (hrate : 0 ≤ s.refillRate)
    (h0 : 0 ≤ cs.tokens) (h1 : cs.tokens ≤ (s.burstSize : ℚ)) :
    0 ≤ (refillTokens s cs now).tokens ∧
      (refillTokens s cs now).tokens ≤ (s.burstSize : ℚ) := by
  unfold refillTokens
  dsimp only
  split_ifs with h
  · have hadd : (0 : ℚ) ≤ (s.refillRate : ℚ) * ((now - cs.lastRefill : Int) : ℚ) / 60 := by
      apply div_nonneg _ (by norm_num)
      apply mul_nonneg (by exact_mod_cast hrate)
      exact_mod_cast le_of_lt h
    have hburst : (0 : ℚ) ≤ (s.burstSize : ℚ) := le_trans h0 h1
    exact goMin_bounds _ _ (by linarith) hburst
  · exact ⟨h0, h1⟩

theorem lookupOrInit_bounds (s : Shard) (key : String) (now : Int)
    (hburst : 0 ≤ s.burstSize)
    (hbase : ∀ cs, alookup s.tokens key = some cs →
      0 ≤ cs.tokens ∧ cs.tokens ≤ (s.burstSize : ℚ)) :
    0 ≤ (lookupOrInit s key now).tokens ∧
      (lookupOrInit s key now).tokens ≤ (s.burstSize : ℚ) := by
  unfold lookupOrInit
  rcases hl : alookup s.tokens key with _ | cs
  · constructor
    · show (0 : ℚ) ≤ (s.burstSize : ℚ)
      exact_mod_cast hburst
    · show ((s.burstSize : ℚ)) ≤ (s.burstSize : ℚ)
      exact le_refl _
  · exact hbase cs hl

theorem admitRefill_bounds (s : Shard) (key : String) (now : Int)
    (hrate : 0 ≤ s.refillRate) (hburst : 0 ≤ s.burstSize)
    (hbase : ∀ cs, alookup s.tokens key = some cs →
      0 ≤ cs.tokens ∧ cs.tokens ≤ (s.burstSize : ℚ)) :
    0 ≤ (admitRefill s key now).tokens ∧
      (admitRefill s key now).tokens ≤ (s.burstSize : ℚ) := by
  unfold admitRefill
  have hli := lookupOrInit_bounds s key now hburst hbase
  have hcw : (cleanWindow (lookupOrInit s key now) now).tokens =
      (lookupOrInit s key now).tokens := rfl
  exact refillTokens_bounds s _ now hrate (by rw [hcw]; exact hli.1) (by rw [hcw]; exact hli.2)

theorem applyCustomRate_inv (burst : Int) (s : Shard) (customRate : Int)
    (h : shardInv burst s) : shardInv burst (applyCustomRate s customRate) := by
  unfold applyCustomRate
  split_ifs with hc
  · exact ⟨h.1, by simp only; omega, h.2.2⟩
  · exact h

theorem shardAdmit_inv (burst : Int) (s : Shard) (key : String) (now : Int)
    (hburst : 0 ≤ burst) (h : shardInv burst s) :
    shardInv burst (shardAdmit s key now).1 := by
  obtain ⟨hb, hr, hmap⟩ := h
  have hbc : ((s.burstSize : ℚ)) = (burst : ℚ) := by exact_mod_cast congrArg Int.cast hb
  have hbase : ∀ cs, alookup s.tokens key = some cs →
      0 ≤ cs.tokens ∧ cs.tokens ≤ (s.burstSize : ℚ) := by
    intro cs hl
    rw [hbc]
    exact hmap key cs hl
  have hbounds := admitRefill_bounds s key now hr (by omega) hbase
  unfold shardAdmit
  dsimp only
  by_cases hc : (admitRefill s key now).tokens ≥ 1
  · rw [if_pos hc]
    refine ⟨hb, hr, ?_⟩
    intro k cs hl
    by_cases hk : key = k
    · subst hk
      rw [alookup_ainsert_self] at hl
      injection hl with hl
      subst hl
      constructor
      · dsimp only
        linarith
      · dsimp only
        rw [← hbc]
        linarith [hbounds.2]
    · rw [alookup_ainsert_ne _ _ _ _ hk] at hl
      exact hmap k cs hl
  · rw [if_neg hc]
    refine ⟨hb, hr, ?_⟩
    intro k cs hl
    by_cases hk : key = k
    · subst hk
      rw [alookup_ainsert_self] at hl
      injection hl with hl
      subst hl
      rw [← hbc]
      exact hbounds
    · rw [alookup_ainsert_ne _ _ _ _ hk] at hl
      exact hmap k cs hl

theorem shardReachable_inv (defaultRate burst : Int)
    (hrate : 0 ≤ defaultRate) (hburst : 0 ≤ burst)
    (s : Shard) (h : ShardReachable defaultRate burst s) : shardInv burst s := by
  induction h with
  | init =>
      refine ⟨rfl, hrate, ?_⟩
      intro key cs hl
      simp [newShard, alookup] at hl
  | step s key customRate now hr ih =>
      exact shardAdmit_inv burst _ key now hburst (applyCustomRate_inv burst s customRate ih)


/-! ### C7: token bounds -/

/-- Claim C7: in every shard state reachable from a fresh shard by any
sequence of `Allow` calls (any keys, custom rates and clock readings), every
stored client's token count lies in `[0, burst]`; and the intermediate
post-refill token count of the next admission also lies in `[0, burst]`.
Requires the configured default rate and burst size to be non-negative. -/
theorem limiter_tokens_bounded (defaultRate burst : Int)
    (hrate : 0 ≤ defaultRate) (hburst : 0 ≤ burst)
    (s : Shard) (h : ShardReachable defaultRate burst s) :
    (∀ key cs, alookup s.tokens key = some cs →
        0 ≤ cs.tokens ∧ cs.tokens ≤ (burst : ℚ))
  ∧ ∀ (key : String) (customRate now : Int),
      0 ≤ (admitRefill (applyCustomRate s customRate) key now).tokens ∧
        (admitRefill (applyCustomRate s customRate) key now).tokens ≤ (burst : ℚ) := by
  have hinv := shardReachable_inv defaultRate burst hrate hburst s h
  refine ⟨hinv.2.2, ?_⟩
  intro key customRate now
  obtain ⟨hb, hr, hmap⟩ := applyCustomRate_inv burst s customRate hinv
  have hbc : (((applyCustomRate s customRate).burstSize : ℚ)) = (burst : ℚ) := by
    exact_mod_cast congrArg Int.cast hb
  have hres := admitRefill_bounds (applyCustomRate s customRate) key now hr (by omega)
    (fun cs hl => by rw [hbc]; exact hmap key cs hl)
  rw [hbc] at hres
  exact hres

/-- Witness for C7 at the reachable shard `c7Shard`. -/
theorem limiter_tokens_bounded_witness :
    alookup c7Shard.tokens "a" = some c7State ∧
      0 ≤ c7State.tokens ∧ c7State.tokens ≤ ((5 : Int) : ℚ) := by
  have hl : alookup c7Shard.tokens "a" = some c7State := by
    norm_num +decide [c7Shard, c7State, shardAdmit, admitRefill, refillTokens, cleanWindow,
      lookupOrInit, applyCustomRate, newShard, alookup, ainsert, goMin, goInt64]
  exact ⟨hl,
    (limiter_tokens_bounded 60 5 (by norm_num) (by norm_num) c7Shard
      (ShardReachable.step _ "a" 0 0 ShardReachable.init)).1 "a" c7State hl⟩

/-! ### C5: the denied-admission formula -/

/-- Claim C5 as amended: when the post-refill token count is below 1 (and
non-negative), `Allow` returns `(false, 0, now + wait)` where
`wait = int64((deficit / rate) * 60)` TRUNCATES toward zero (Go `int64`
conversion) rather than taking the ceiling the spec prescribes. -/
theorem shardAdmit_denied_formula (s : Shard) (key : String) (now : Int)
    (h1 : (admitRefill s key now).tokens < 1)
    (h0 : 0 ≤ (admitRefill s key now).tokens) :
    (shardAdmit s key now).2 =
      (false, 0,
        now + goInt64 ((1 - (admitRefill s key now).tokens) / (s.refillRate : ℚ) * 60)) := by
  unfold shardAdmit
  dsimp only
  rw [if_neg (not_le.mpr h1)]
  have hz : goInt64 (admitRefill s key now).tokens = 0 := by
    unfold goInt64
    rw [if_neg (not_lt.mpr h0)]
    exact Int.floor_eq_zero_iff.mpr ⟨h0, h1⟩
  rw [hz]

/-- Witness for the amended C5 at the concrete denied admission of
`limiter_wait_truncates`. -/
theorem shardAdmit_denied_formula_witness :
    (shardAdmit c5Shard "b" 1).2 =
      (false, 0,
        1 + goInt64 ((1 - (admitRefill c5Shard "b" 1).tokens) /
          ((c5Shard.refillRate : ℚ)) * 60)) :=
  shardAdmit_denied_formula c5Shard "b" 1
    (by norm_num +decide [c5Shard, admitRefill, refillTokens, cleanWindow, lookupOrInit,
      shardAdmit, applyCustomRate, newShard, alookup, ainsert, goMin, goInt64])
    (by norm_num +decide [c5Shard, admitRefill, refillTokens, cleanWindow, lookupOrInit,
      shardAdmit, applyCustomRate, newShard, alookup, ainsert, goMin, goInt64])

/-- Counterexample to claim C5 as stated: with rate 40/min and burst 1,
after an admission at second 0 empties the bucket, the admission at second 1
finds 2/3 token; the code returns resetTime `1 + trunc(1/2) = 1`, while the
spec formula `now + ceil((deficit/rate)*60)` gives `1 + 1 = 2`. -/
theorem limiter_wait_truncates :
    (shardAdmit c5Shard "b" 1).2.1 = false
  ∧ (admitRefill c5Shard "b" 1).tokens = 2 / 3
  ∧ (shardAdmit c5Shard "b" 1).2.2.2 = 1
  ∧ 1 + specCeilWait (admitRefill c5Shard "b" 1).tokens ((c5Shard.refillRate : ℚ)) = 2
  ∧ (shardAdmit c5Shard "b" 1).2.2.2 ≠
      1 + specCeilWait (admitRefill c5Shard "b" 1).tokens ((c5Shard.refillRate : ℚ)) := by
  have htok : (admitRefill c5Shard "b" 1).tokens = 2 / 3 := by
    norm_num +decide [c5Shard, admitRefill, refillTokens, cleanWindow, lookupOrInit,
      shardAdmit, applyCustomRate, newShard, alookup, ainsert, goMin, goInt64]
  have hrate : (c5Shard.refillRate : ℚ) = 40 := by
    norm_num +decide [c5Shard, shardAdmit, admitRefill, refillTokens, cleanWindow, lookupOrInit,
      newShard, alookup, ainsert, goMin, goInt64]
  have hceil : specCeilWait ((2 : ℚ) / 3) 40 = 1 := by
    unfold specCeilWait
    rw [show ((1 : ℚ) - 2 / 3) / 40 * 60 = 1 / 2 by norm_num]
    rw [Int.ceil_eq_iff]
    constructor <;> norm_num
  have hreset : (shardAdmit c5Shard "b" 1).2.2.2 = 1 := by
    norm_num +decide [c5Shard, shardAdmit, admitRefill, refillTokens, cleanWindow, lookupOrInit,
      applyCustomRate, newShard, alookup, ainsert, goMin, goInt64]
  have hfalse : (shardAdmit c5Shard "b" 1).2.1 = false := by
    norm_num +decide [c5Shard, shardAdmit, admitRefill, refillTokens, cleanWindow, lookupOrInit,
      applyCustomRate, newShard, alookup, ainsert, goMin, goInt64]
  refine ⟨hfalse, htok, hreset, ?_, ?_⟩
  · rw [htok, hrate, hceil]
    norm_num
  · rw [htok, hrate, hceil, hreset]
    norm_num

/-! ### C6: the customRate override -/

/-- Claim C6 fails on the code: a positive `customRate` overwrites the
shard-wide `refillRate` field and the override persists.  With one shard
(every key hashes to shard 0), default rate 60/min and burst 5: client "b"
spends three tokens at second 0, client "a" calls with customRate 120, and
"b"'s next call (customRate 0) at second 1 refills two tokens at rate 120
instead of one at the default rate, returning remaining 3; without "a"'s
call the same sequence returns remaining 2.  The shard's rate stays 120. -/
theorem customRate_leaks_to_other_clients :
    getShardIdx (newLimiter 1 60 5) "a" = 0
  ∧ getShardIdx (newLimiter 1 60 5) "b" = 0
  ∧ ((runShard (newShard 60 5)
        [("b", 0, 0), ("b", 0, 0), ("b", 0, 0), ("a", 120, 0), ("b", 0, 1)]).2.map
        (fun o => o.2.1)) = [4, 3, 2, 4, 3]
  ∧ (runShard (newShard 60 5)
        [("b", 0, 0), ("b", 0, 0), ("b", 0, 0), ("a", 120, 0), ("b", 0, 1)]).1.refillRate = 120
  ∧ ((runShard (newShard 60 5)
        [("b", 0, 0), ("b", 0, 0), ("b", 0, 0), ("b", 0, 1)]).2.map
        (fun o => o.2.1)) = [4, 3, 2, 2] := by
  refine ⟨by decide, by decide, ?_, ?_, ?_⟩ <;>
    norm_num +decide [runShard, shardAdmit, admitRefill, refillTokens, cleanWindow, lookupOrInit,
      applyCustomRate, newShard, alookup, ainsert, goMin, goInt64]


theorem enrollAll_waiters (n : Nat) (g : CoalesceGroup)
    (hdone : g.done = false) (hw : 1 ≤ g.waiters) :
    enrollAll g n = ({ g with waiters := g.waiters + n }, List.replicate n Role.waiter) := by
  induction n generalizing g with
  | zero =>
      cases g
      simp [enrollAll]
  | succ n ih =>
      have he : enroll g =
          ({ waiters := g.waiters + 1, done := g.done, response := g.response },
            Role.waiter) := by
        unfold enroll
        rw [if_neg (by rw [hdone]; exact Bool.false_ne_true), if_neg (by omega)]
      unfold enrollAll
      rw [he]
      dsimp only
      rw [ih { waiters := g.waiters + 1, done := g.done, response := g.response }
        (by exact hdone) (by show 1 ≤ g.waiters + 1; omega)]
      dsimp only
      rw [show g.waiters + 1 + n = g.waiters + (n + 1) by omega]
      rw [List.replicate_succ]

/-! ### C8: singleflight coalescing -/

/-- Claim C8: when `n ≥ 1` callers of `Do` with the same key all pass their
(mutex-serialized) enrollment sections before the executor completes, exactly
one becomes the executor (`fn` is invoked precisely by the executor, hence
exactly once), the other `n - 1` become waiters, and the completion section
broadcasts the executor's single wrapped response to all `n` enrolled
channels, so every caller receives the same outcome. -/
theorem coalesce_single_flight (n : Nat) (hn : 1 ≤ n)
    (resp : Option CResponse) (err : Option String) :
    (enrollAll newGroup n).2.count Role.executor = 1
  ∧ (enrollAll newGroup n).2.count Role.waiter = n - 1
  ∧ (enrollAll newGroup n).2.count Role.lateComer = 0
  ∧ (enrollAll newGroup n).1.waiters = n
  ∧ (completeGroup (enrollAll newGroup n).1 resp err).2.2 =
      List.replicate n (completeGroup (enrollAll newGroup n).1 resp err).2.1
  ∧ (completeGroup (enrollAll newGroup n).1 resp err).1.done = true := by
  obtain ⟨m, rfl⟩ : ∃ m, n = m + 1 := ⟨n - 1, by omega⟩
  have hfirst : enroll newGroup =
      ({ waiters := 1, done := false, response := none }, Role.executor) := by decide
  have hrest := enrollAll_waiters m
    { waiters := 1, done := false, response := none } rfl (le_refl 1)
  have hall : enrollAll newGroup (m + 1) =
      ({ waiters := 1 + m, done := false, response := none },
        Role.executor :: List.replicate m Role.waiter) := by
    unfold enrollAll
    rw [hfirst]
    dsimp only
    rw [hrest]
  rw [hall]
  refine ⟨?_, ?_, ?_, ?_, ?_, rfl⟩
  · simp [List.count_cons, List.count_replicate]
  · simp [List.count_cons, List.count_replicate]
  · simp [List.count_cons, List.count_replicate]
  · simp [newGroup]
    omega
  · unfold completeGroup
    simp only [newGroup]
    rw [Nat.add_comm 1 m]

/-- Witness for C8 with three concurrent callers and a successful response. -/
theorem coalesce_single_flight_witness :
    (enrollAll newGroup 3).2.count Role.executor = 1
  ∧ (enrollAll newGroup 3).2.count Role.waiter = 3 - 1
  ∧ (enrollAll newGroup 3).2.count Role.lateComer = 0
  ∧ (enrollAll newGroup 3).1.waiters = 3
  ∧ (completeGroup (enrollAll newGroup 3).1
        (some { statusCode := 200, body := [7], err := none }) none).2.2 =
      List.replicate 3 (completeGroup (enrollAll newGroup 3).1
        (some { statusCode := 200, body := [7], err := none }) none).2.1
  ∧ (completeGroup (enrollAll newGroup 3).1
        (some { statusCode := 200, body := [7], err := none }) none).1.done = true :=
  coalesce_single_flight 3 (by norm_num)
    (some { statusCode := 200, body := [7], err := none }) none

end Gateway
